import Mathlib

/-!
Shallow embedding of `src/pipelinex/decorators/decorators.py`.

The module defines three decorators:
* `log_time` — wraps a callable, logging elapsed wall-clock time on the
  normal-return path only;
* `mem_profile` — defined only when the `memory_profiler` package is
  discoverable at module load time;
* `dict_io` — adapts a per-scalar callable to callables over mappings,
  together with the helper `dict_of_list_to_list_of_dict`.

Python dynamic values are modelled by `PyVal`; Python dicts (with insertion
order) by association lists `List (String × PyVal)`; a callable that may
raise by a function into `Except PyErr _`.  Elapsed times are modelled by
exact rationals.
-/

/-- A Python runtime value as used by this module: an integer, a tuple, or
`None` (the value `dict.get` yields for a missing key). -/
inductive PyVal : Type where
  | int : Int → PyVal
  | tup : List PyVal → PyVal
  | none : PyVal
deriving Repr

/-- A Python exception, as far as this module can raise or propagate one. -/
inductive PyErr : Type where
  /-- an exception raised by the wrapped callable itself -/
  | userError : String → PyErr
  /-- `args[0]` with no positional arguments -/
  | indexError : PyErr
  /-- the post-loop `out_dict[key]` when the loop variable `key` was never bound -/
  | nameError : PyErr
  /-- `zip(*...)` over a non-iterable value -/
  | typeError : PyErr
  /-- dict subscript on an absent key -/
  | keyError : PyErr
deriving Repr, DecidableEq

/-- `isinstance(v, tuple)`. -/
def PyVal.isTup : PyVal → Bool
  | .tup _ => true
  | _ => false

/-- A Python dict with string keys, in insertion order. -/
abbrev PyDict := List (String × PyVal)

/-- `d.get(k)`: the value at `k`, or `None` when `k` is absent (never raises). -/
def dictGet (d : PyDict) (k : String) : PyVal :=
  match d.lookup k with
  | some v => v
  | Option.none => PyVal.none

/-- `d[k] = v`: overwrite in place when `k` is present, else append (Python
dict insertion-order semantics). -/
def dictSet (d : PyDict) (k : String) (v : PyVal) : PyDict :=
  if d.any (fun p => p.1 == k) then
    d.map (fun p => if p.1 == k then (p.1, v) else p)
  else d ++ [(k, v)]

/-- Only tuples are iterable among our `PyVal`s (`int` and `None` are not). -/
def pyIter : PyVal → Option (List PyVal)
  | .tup xs => some xs
  | _ => Option.none

/-- The number of rows `zip(*vss)` yields: `0` for no iterables, else the
minimum length. -/
def pyZipLen : List (List PyVal) → Nat
  | [] => 0
  | l :: rest => rest.foldr (fun x m => min x.length m) l.length

/-- `zip(*vss)`: row `i` collects element `i` of every list, stopping at the
shortest list. -/
def pyZipStar (vss : List (List PyVal)) : List (List PyVal) :=
  (List.range (pyZipLen vss)).map (fun i => vss.map (fun l => l.getD i PyVal.none))

/-- Iterate every value, or fail on the first non-iterable one (the check
`zip(*...)` performs on its arguments). -/
def pyIterAll : List PyVal → Option (List (List PyVal))
  | [] => some []
  | v :: vs =>
    match pyIter v, pyIterAll vs with
    | some l, some ls => some (l :: ls)
    | _, _ => Option.none

/-- `dict_of_list_to_list_of_dict`:
`[dict(zip(d.keys(), vals)) for vals in zip(*d.values())]`.
Raises `TypeError` when some value is not iterable. -/
def dict_of_list_to_list_of_dict (d : PyDict) : Except PyErr (List PyDict) :=
  match pyIterAll (d.map Prod.snd) with
  | Option.none => .error .typeError
  | some vss => .ok ((pyZipStar vss).map (fun row => (d.map Prod.fst).zip row))

/-- The values the adapter passes positionally to the wrapped callable for
key `k`: `[e.get(key) for e in args]`. -/
def dictIoArgsAt (args : List PyDict) (k : String) : List PyVal :=
  args.map (fun e => dictGet e k)

/-- The `for key in keys` loop of `_dict_io`: call `func` per key, stop at the
first raised error, accumulate `out_dict[key] = out`.  (The per-key
`log.info` call does not affect the returned value and is not modelled.) -/
def dictIoLoop (f : List PyVal → Except PyErr PyVal) (args : List PyDict) :
    List String → PyDict → Except PyErr PyDict
  | [], od => .ok od
  | k :: ks, od =>
    match f (dictIoArgsAt args k) with
    | .error e => .error e
    | .ok out => dictIoLoop f args ks (dictSet od k out)

/-- The result of a `_dict_io` call: either a dict or a tuple of dicts. -/
inductive DIOOut : Type where
  | dict : PyDict → DIOOut
  | tup : List PyDict → DIOOut
deriving Repr

/-- `dict_io(func)` applied to positional dict arguments `args`:
take `keys = args[0].keys()`, run the per-key loop, then inspect
`out_dict[key]` for the last iterated `key` — a tuple selects the transpose
branch, anything else returns `out_dict` itself.  With no keys the loop
variable `key` is unbound and the inspection raises `NameError`; with no
arguments `args[0]` raises `IndexError`. -/
def dict_io (f : List PyVal → Except PyErr PyVal) (args : List PyDict) :
    Except PyErr DIOOut :=
  match args with
  | [] => .error .indexError
  | d0 :: _ =>
    let keys := d0.map Prod.fst
    match keys.getLast? with
    | Option.none => .error .nameError
    | some lastKey =>
      match dictIoLoop f args keys [] with
      | .error e => .error e
      | .ok od =>
        match od.lookup lastKey with
        | Option.none => .error .keyError
        | some w =>
          if w.isTup then
            match dict_of_list_to_list_of_dict od with
            | .error e => .error e
            | .ok l => .ok (.tup l)
          else .ok (.dict od)

/-! ### `_human_readable_time`

The Python function computes with floats; the embedding uses exact rationals,
with `divmod` as floor-division plus remainder and the `%`-format conversions
made explicit: `%d` truncates toward zero, `%02d` additionally pads to two
digits, `%.Nf` rounds to `N` decimals with ties to even (the rounding of the
underlying C `printf`). -/

/-- `int(q)` as `%d` applies it: truncation toward zero. -/
def pyTrunc (q : ℚ) : ℤ :=
  if q < 0 then -⌊-q⌋ else ⌊q⌋

/-- `"%d" % q`. -/
def pyFmtD (q : ℚ) : String :=
  toString (pyTrunc q)

/-- `"%02d" % n` for an integer: zero-pad to width 2. -/
def pad2Int (n : ℤ) : String :=
  if 0 ≤ n ∧ n < 10 then "0" ++ toString n else toString n

/-- `"%02d" % q`. -/
def pyFmt02d (q : ℚ) : String :=
  pad2Int (pyTrunc q)

/-- Round to the nearest integer, ties to even. -/
def roundHalfEven (q : ℚ) : ℤ :=
  if q - ⌊q⌋ < 1/2 then ⌊q⌋
  else if q - ⌊q⌋ > 1/2 then ⌊q⌋ + 1
  else if ⌊q⌋ % 2 = 0 then ⌊q⌋ else ⌊q⌋ + 1

/-- `"%.{prec}f" % q` for a non-negative `q`: fixed-point rendering with
`prec` decimal places. -/
def fmtFixed (prec : Nat) (q : ℚ) : String :=
  let n := (roundHalfEven (q * (10 : ℚ) ^ prec)).toNat
  if prec = 0 then toString n
  else
    let ip := n / 10 ^ prec
    let fp := n % 10 ^ prec
    let fps := toString fp
    ip.repr ++ "." ++ (List.replicate (prec - fps.length) '0').asString ++ fps

/-- `_human_readable_time(elapsed)`:
`mins, secs = divmod(elapsed, 60)`; `hours, mins = divmod(mins, 60)`;
then pick the first matching format. -/
def human_readable_time (elapsed : ℚ) : String :=
  let mins0 : ℤ := ⌊elapsed / 60⌋
  let secs : ℚ := elapsed - 60 * mins0
  let hours : ℤ := ⌊(mins0 : ℚ) / 60⌋
  let mins : ℚ := (mins0 : ℚ) - 60 * hours
  if hours > 0 then
    pyFmtD (hours : ℚ) ++ "h" ++ pyFmt02d mins ++ "m" ++ pyFmt02d secs ++ "s"
  else if mins > 0 then
    pyFmtD mins ++ "m" ++ pyFmt02d secs ++ "s"
  else if secs ≥ 1 then
    fmtFixed 2 secs ++ "s"
  else
    fmtFixed 0 (secs * 1000) ++ "ms"

/-! ### `log_time` and `mem_profile`

A wrapped call is modelled as a pair: the `Except` outcome and the list of
log records emitted during the call.  The clock is ambient state, so the
elapsed duration is a parameter of the model; likewise the peak memory
reading of `memory_usage`. -/

/-- The log record `log_time` emits on the normal-return path. -/
def logTimeMsg (fname : String) (elapsed : ℚ) : String :=
  "Running " ++ fname ++ " took " ++ human_readable_time elapsed

/-- `log_time(func)` applied to `x`: call `func`, and only if it returns
normally, log and hand the result back unchanged; a raised error propagates
before the logging statement runs. -/
def log_time {α β : Type} (f : α → Except PyErr β) (fname : String)
    (elapsed : ℚ) (x : α) : Except PyErr β × List String :=
  match f x with
  | .error e => (.error e, [])
  | .ok r => (.ok r, [logTimeMsg fname elapsed])

/-- The log record `mem_profile` emits on the normal-return path. -/
def memProfileMsg (fname : String) (memUsage : ℚ) : String :=
  "Running " ++ fname ++ " consumed " ++ fmtFixed 2 memUsage ++ "MiB memory at peak time"

/-- The body of `mem_profile`'s wrapper: `memory_usage(..., retval=True)`
runs `func` (propagating any error) and reports the sampled peak, which is
then logged and the original result returned. -/
def with_memory {α β : Type} (f : α → Except PyErr β) (fname : String)
    (memUsage : ℚ) (x : α) : Except PyErr β × List String :=
  match f x with
  | .error e => (.error e, [])
  | .ok r => (.ok r, [memProfileMsg fname memUsage])

/-- The environment a module load sees: whether
`find_spec("memory_profiler")` succeeds. -/
structure PyEnv : Type where
  memory_profiler_found : Bool

/-- The module-level `if find_spec("memory_profiler"):` guard: the
`mem_profile` decorator exists after loading exactly when the package was
discoverable; otherwise the name is never defined. -/
def mem_profile (env : PyEnv) :
    Option ((PyVal → Except PyErr PyVal) → String → ℚ → PyVal →
      Except PyErr PyVal × List String) :=
  if env.memory_profiler_found then some (fun f => with_memory f) else Option.none

/-! ### Concrete callables used to instantiate the theorems

Each models one of the example functions of the specification; every one
raises a `TypeError`-style error when called with arguments of an unexpected
shape, the way the Python original would. -/

/-- `f(x) = x * 2`. -/
def exDouble : List PyVal → Except PyErr PyVal
  | [PyVal.int n] => .ok (PyVal.int (2 * n))
  | _ => .error (.userError "TypeError")

/-- `f(x) = (x, x * 2)`. -/
def exPair : List PyVal → Except PyErr PyVal
  | [PyVal.int n] => .ok (PyVal.tup [PyVal.int n, PyVal.int (2 * n)])
  | _ => .error (.userError "TypeError")

/-- `f(x, y) = x + y`. -/
def exAdd : List PyVal → Except PyErr PyVal
  | [PyVal.int m, PyVal.int n] => .ok (PyVal.int (m + n))
  | _ => .error (.userError "TypeError")

/-- Returns a pair for the input `1` and a bare scalar for anything else:
a callable with heterogeneous per-key result shapes. -/
def exMixed : List PyVal → Except PyErr PyVal
  | [PyVal.int 1] => .ok (PyVal.tup [PyVal.int 1, PyVal.int 1])
  | [PyVal.int n] => .ok (PyVal.int n)
  | _ => .error (.userError "TypeError")

/-- Raises for the input `2`, returns the input unchanged otherwise. -/
def exBoomOn2 : List PyVal → Except PyErr PyVal
  | [PyVal.int 2] => .error (.userError "boom")
  | [PyVal.int n] => .ok (PyVal.int n)
  | _ => .error (.userError "TypeError")

/-- `f(x, y) = y`: hands its second positional argument back. -/
def exSecond : List PyVal → Except PyErr PyVal
  | [_, v] => .ok v
  | _ => .error (.userError "TypeError")

/-- Returns a length-3 tuple for the input `1` and a length-2 tuple for any
other integer: tuple results of differing lengths. -/
def exRagged : List PyVal → Except PyErr PyVal
  | [PyVal.int 1] => .ok (PyVal.tup [PyVal.int 10, PyVal.int 20, PyVal.int 30])
  | [PyVal.int n] => .ok (PyVal.tup [PyVal.int n, PyVal.int 5])
  | _ => .error (.userError "TypeError")

/-- A callable that always raises. -/
def exBoom : PyVal → Except PyErr PyVal :=
  fun _ => .error (.userError "boom")

/-! ### Helper lemmas about the embedding -/

lemma dictGet_of_lookup_none {d : PyDict} {k : String}
    (h : d.lookup k = Option.none) : dictGet d k = PyVal.none := by
  simp [dictGet, h]

lemma dictSet_of_not_mem {d : PyDict} {k : String} (v : PyVal)
    (h : k ∉ d.map Prod.fst) : dictSet d k v = d ++ [(k, v)] := by
  rw [dictSet, if_neg]
  simp only [List.any_eq_true, beq_iff_eq, not_exists]
  intro p hp
  exact absurd (List.mem_map.mpr ⟨p, hp.1, hp.2⟩) h

lemma lookup_map_pair_self (res : String → PyVal) :
    ∀ (ks : List String) (k : String), k ∈ ks →
      (ks.map (fun x => (x, res x))).lookup k = some (res k) := by
  intro ks
  induction ks with
  | nil => intro k hk; cases hk
  | cons a as ih =>
    intro k hk
    by_cases hka : k = a
    · subst hka
      simp [List.lookup]
    · rcases List.mem_cons.mp hk with h | h
      · exact absurd h hka
      · simpa [List.lookup, beq_false_of_ne hka] using ih k h

lemma dictIoLoop_ok_of_forall (f : List PyVal → Except PyErr PyVal)
    (args : List PyDict) (res : String → PyVal) :
    ∀ (ks : List String) (od : PyDict), ks.Nodup →
      (∀ k ∈ ks, k ∉ od.map Prod.fst) →
      (∀ k ∈ ks, f (dictIoArgsAt args k) = .ok (res k)) →
      dictIoLoop f args ks od = .ok (od ++ ks.map (fun k => (k, res k))) := by
  intro ks
  induction ks with
  | nil => intro od _ _ _; simp [dictIoLoop]
  | cons k as ih =>
    intro od hnd hdisj hf
    simp only [dictIoLoop, hf k (List.mem_cons_self k as)]
    rw [dictSet_of_not_mem _ (hdisj k (List.mem_cons_self k as))]
    rw [ih (od ++ [(k, res k)]) (List.nodup_cons.mp hnd).2 ?_ ?_]
    · simp
    · intro x hx
      simp only [List.map_append, List.mem_append, List.map_cons, List.map_nil]
      rintro (hmem | hmem)
      · exact hdisj x (List.mem_cons_of_mem k hx) hmem
      · simp only [List.mem_singleton] at hmem
        exact (List.nodup_cons.mp hnd).1 (hmem ▸ hx)
    · exact fun x hx => hf x (List.mem_cons_of_mem k hx)

lemma dictIoLoop_error_first (f : List PyVal → Except PyErr PyVal)
    (args : List PyDict) (k : String) (ks₂ : List String) (e : PyErr)
    (herr : f (dictIoArgsAt args k) = .error e) :
    ∀ (ks₁ : List String) (od : PyDict),
      (∀ x ∈ ks₁, ∃ v, f (dictIoArgsAt args x) = .ok v) →
      dictIoLoop f args (ks₁ ++ k :: ks₂) od = .error e := by
  intro ks₁
  induction ks₁ with
  | nil => intro od _; rw [List.nil_append, dictIoLoop, herr]
  | cons a as ih =>
    intro od hok
    obtain ⟨v, hv⟩ := hok a (List.mem_cons_self a as)
    rw [List.cons_append, dictIoLoop, hv]
    exact ih _ (fun x hx => hok x (List.mem_cons_of_mem a hx))

lemma pyIterAll_map_tup (res : String → List PyVal) :
    ∀ ks : List String,
      pyIterAll ((ks.map (fun k => (k, PyVal.tup (res k)))).map Prod.snd) =
        some (ks.map res) := by
  intro ks
  induction ks with
  | nil => rfl
  | cons a as ih => simp only [List.map_cons, pyIterAll, pyIter, ih]

lemma foldr_min_le_init (li : List (List PyVal)) (a : Nat) :
    li.foldr (fun x m => min x.length m) a ≤ a := by
  induction li with
  | nil => exact le_refl a
  | cons x xs ih => exact le_trans (min_le_right _ _) ih

lemma foldr_min_le_mem (li : List (List PyVal)) (a : Nat) :
    ∀ l ∈ li, li.foldr (fun x m => min x.length m) a ≤ l.length := by
  induction li with
  | nil => intro l hl; cases hl
  | cons x xs ih =>
    intro l hl
    rcases List.mem_cons.mp hl with h | h
    · exact h ▸ min_le_left _ _
    · exact le_trans (min_le_right _ _) (ih l h)

lemma foldr_min_attained (li : List (List PyVal)) (a : Nat) :
    li.foldr (fun x m => min x.length m) a = a ∨
      ∃ l ∈ li, li.foldr (fun x m => min x.length m) a = l.length := by
  induction li with
  | nil => exact Or.inl rfl
  | cons x xs ih =>
    rcases le_total x.length (xs.foldr (fun x m => min x.length m) a) with h | h
    · exact Or.inr ⟨x, List.mem_cons_self x xs, min_eq_left h⟩
    · rcases ih with h2 | ⟨l, hl, h2⟩
      · exact Or.inl ((min_eq_right h).trans h2)
      · exact Or.inr ⟨l, List.mem_cons_of_mem x hl, (min_eq_right h).trans h2⟩

lemma pyZipLen_le {vss : List (List PyVal)} :
    ∀ l ∈ vss, pyZipLen vss ≤ l.length := by
  cases vss with
  | nil => intro l hl; cases hl
  | cons v rest =>
    intro l hl
    rcases List.mem_cons.mp hl with h | h
    · exact h ▸ foldr_min_le_init rest v.length
    · exact foldr_min_le_mem rest v.length l h

lemma pyZipLen_attained {vss : List (List PyVal)} (h : vss ≠ []) :
    ∃ l ∈ vss, pyZipLen vss = l.length := by
  cases vss with
  | nil => exact absurd rfl h
  | cons v rest =>
    rcases foldr_min_attained rest v.length with h2 | ⟨l, hl, h2⟩
    · exact ⟨v, List.mem_cons_self v rest, h2⟩
    · exact ⟨l, List.mem_cons_of_mem v hl, h2⟩

lemma pyZipLen_eq_min {vss : List (List PyVal)} (hne : vss ≠ []) (n : Nat)
    (hlb : ∀ l ∈ vss, n ≤ l.length) (hmem : ∃ l ∈ vss, l.length = n) :
    pyZipLen vss = n := by
  obtain ⟨l0, hl0, hlen0⟩ := hmem
  obtain ⟨l1, hl1, hlen1⟩ := pyZipLen_attained hne
  exact le_antisymm (hlen0 ▸ pyZipLen_le l0 hl0) (hlen1 ▸ hlb l1 hl1)

lemma zip_self_map {α β : Type} (l : List α) (g : α → β) :
    l.zip (l.map g) = l.map (fun a => (a, g a)) := by
  induction l with
  | nil => rfl
  | cons a as ih => simp [List.zip_cons_cons, ih]

lemma map_fst_map_pair (res : String → PyVal) (ks : List String) :
    ((ks.map (fun k => (k, res k))).map Prod.fst) = ks := by
  simp [List.map_map, Function.comp_def]

lemma dict_io_scalar_master (f : List PyVal → Except PyErr PyVal)
    (d0 : PyDict) (rest : List PyDict) (res : String → PyVal) (lk : String)
    (hnd : (d0.map Prod.fst).Nodup)
    (hlk : (d0.map Prod.fst).getLast? = some lk)
    (hf : ∀ k ∈ d0.map Prod.fst, f (dictIoArgsAt (d0 :: rest) k) = .ok (res k))
    (hs : (res lk).isTup = false) :
    dict_io f (d0 :: rest) =
      .ok (.dict ((d0.map Prod.fst).map (fun k => (k, res k)))) := by
  have hlkmem : lk ∈ d0.map Prod.fst := List.mem_of_getLast?_eq_some hlk
  have hloop := dictIoLoop_ok_of_forall f (d0 :: rest) res (d0.map Prod.fst) []
    hnd (by intro k _; simp) hf
  rw [dict_io, hlk, hloop]
  simp only [List.nil_append, lookup_map_pair_self res _ lk hlkmem, hs]
  simp

lemma dict_io_tup_master (f : List PyVal → Except PyErr PyVal)
    (d0 : PyDict) (rest : List PyDict) (res : String → List PyVal)
    (hnd : (d0.map Prod.fst).Nodup)
    (hne : d0.map Prod.fst ≠ [])
    (hf : ∀ k ∈ d0.map Prod.fst,
      f (dictIoArgsAt (d0 :: rest) k) = .ok (.tup (res k))) :
    dict_io f (d0 :: rest) =
      .ok (.tup ((List.range (pyZipLen ((d0.map Prod.fst).map res))).map
        (fun i => (d0.map Prod.fst).map (fun k => (k, (res k).getD i PyVal.none))))) := by
  obtain ⟨lk, hlk⟩ := Option.isSome_iff_exists.mp (List.getLast?_isSome.mpr hne)
  have hlkmem := List.mem_of_getLast?_eq_some hlk
  have hloop := dictIoLoop_ok_of_forall f (d0 :: rest) (fun k => PyVal.tup (res k))
    (d0.map Prod.fst) [] hnd (by intro k _; simp) hf
  have hiter := pyIterAll_map_tup res (d0.map Prod.fst)
  rw [dict_io, hlk, hloop]
  simp only [List.nil_append,
    lookup_map_pair_self (fun k => PyVal.tup (res k)) _ lk hlkmem,
    PyVal.isTup, if_true, dict_of_list_to_list_of_dict, hiter]
  simp only [pyZipStar, List.map_map, Function.comp_def, map_fst_map_pair,
    zip_self_map, List.zip_map']

/-! ### Claims -/

/-- C1: Transpose branch of the Row/Column Adapter.  For every callable `f`
and non-empty input mapping(s) whose per-key results are tuples all of length
`n`, the adapted callable returns a tuple of `n` mappings, where mapping `i`
maps each key to element `i` of that key's result tuple, keys in the first
mapping's iteration order. -/
theorem c1_transpose_branch (f : List PyVal → Except PyErr PyVal)
    (d0 : PyDict) (rest : List PyDict) (res : String → List PyVal) (n : Nat)
    (hne : d0.map Prod.fst ≠ [])
    (hnd : (d0.map Prod.fst).Nodup)
    (hf : ∀ k ∈ d0.map Prod.fst,
      f (dictIoArgsAt (d0 :: rest) k) = .ok (.tup (res k)))
    (hlen : ∀ k ∈ d0.map Prod.fst, (res k).length = n) :
    dict_io f (d0 :: rest) =
      .ok (.tup ((List.range n).map
        (fun i => (d0.map Prod.fst).map (fun k => (k, (res k).getD i PyVal.none))))) := by
  have hz : pyZipLen ((d0.map Prod.fst).map res) = n := pyZipLen_eq_min
    (fun h => hne (List.map_eq_nil_iff.mp h)) n
    (by
      intro l hl
      obtain ⟨k, hk, rfl⟩ := List.mem_map.mp hl
      exact (hlen k hk).ge)
    (by
      obtain ⟨k0, hk0⟩ := List.exists_mem_of_ne_nil _ hne
      exact ⟨res k0, List.mem_map_of_mem res hk0, hlen k0 hk0⟩)
  rw [dict_io_tup_master f d0 rest res hnd hne hf, hz]

/-- Witness for C1: the spec's example, `f(x) = (x, x*2)` on
`{"a": 1, "b": 2}`, which yields `({"a": 1, "b": 2}, {"a": 2, "b": 4})`. -/
theorem c1_transpose_branch_witness :
    dict_io exPair [[("a", PyVal.int 1), ("b", PyVal.int 2)]] =
      .ok (.tup [[("a", PyVal.int 1), ("b", PyVal.int 2)],
                 [("a", PyVal.int 2), ("b", PyVal.int 4)]]) := by
  have h := c1_transpose_branch exPair [("a", PyVal.int 1), ("b", PyVal.int 2)] []
    (fun k => if k = "a" then [PyVal.int 1, PyVal.int 2] else [PyVal.int 2, PyVal.int 4]) 2
    (by decide) (by decide)
    (by
      intro k hk
      simp only [List.map_cons, List.map_nil, List.mem_cons,
        List.not_mem_nil, or_false] at hk
      rcases hk with rfl | rfl <;> rfl)
    (by
      intro k hk
      simp only [List.map_cons, List.map_nil, List.mem_cons,
        List.not_mem_nil, or_false] at hk
      rcases hk with rfl | rfl <;> rfl)
  exact h.trans (by rfl)

/-- C2: Scalar branch of the Row/Column Adapter.  For every callable `f` and
non-empty first input mapping whose result for the last iterated key is not a
tuple, the adapted callable returns the mapping from each key to the result
of `f` on the values extracted at that key from every input mapping,
preserving the first mapping's key iteration order. -/
theorem c2_scalar_branch (f : List PyVal → Except PyErr PyVal)
    (d0 : PyDict) (rest : List PyDict) (res : String → PyVal) (lk : String)
    (hnd : (d0.map Prod.fst).Nodup)
    (hlk : (d0.map Prod.fst).getLast? = some lk)
    (hf : ∀ k ∈ d0.map Prod.fst, f (dictIoArgsAt (d0 :: rest) k) = .ok (res k))
    (hs : (res lk).isTup = false) :
    dict_io f (d0 :: rest) =
      .ok (.dict ((d0.map Prod.fst).map (fun k => (k, res k)))) :=
  dict_io_scalar_master f d0 rest res lk hnd hlk hf hs

/-- Witness for C2: the spec's examples.  `f(x) = x * 2` on `{"a": 1, "b": 2}`
yields `{"a": 2, "b": 4}`, and `f(x, y) = x + y` on `{"a": 1}` and `{"a": 10}`
yields `{"a": 11}`. -/
theorem c2_scalar_branch_witness :
    dict_io exDouble [[("a", PyVal.int 1), ("b", PyVal.int 2)]] =
      .ok (.dict [("a", PyVal.int 2), ("b", PyVal.int 4)]) ∧
    dict_io exAdd [[("a", PyVal.int 1)], [("a", PyVal.int 10)]] =
      .ok (.dict [("a", PyVal.int 11)]) := by
  constructor
  · have h := c2_scalar_branch exDouble [("a", PyVal.int 1), ("b", PyVal.int 2)] []
      (fun k => if k = "a" then PyVal.int 2 else PyVal.int 4) "b"
      (by decide) (by rfl)
      (by
        intro k hk
        simp only [List.map_cons, List.map_nil, List.mem_cons,
          List.not_mem_nil, or_false] at hk
        rcases hk with rfl | rfl <;> rfl)
      (by rfl)
    exact h.trans (by rfl)
  · have h := c2_scalar_branch exAdd [("a", PyVal.int 1)] [[("a", PyVal.int 10)]]
      (fun _ => PyVal.int 11) "a"
      (by decide) (by rfl)
      (by
        intro k hk
        simp only [List.map_cons, List.map_nil, List.mem_cons,
          List.not_mem_nil, or_false] at hk
        rcases hk with rfl
        rfl)
      (by rfl)
    exact h.trans (by rfl)

/-- C3: Error atomicity of the Row/Column Adapter.  If the wrapped callable
raises at some key (all earlier keys having succeeded), the adapted call
raises that same error: no output mapping is produced for any key. -/
theorem c3_error_atomicity (f : List PyVal → Except PyErr PyVal)
    (d0 : PyDict) (rest : List PyDict)
    (ks₁ : List String) (k : String) (ks₂ : List String) (e : PyErr)
    (res : String → PyVal)
    (hsplit : d0.map Prod.fst = ks₁ ++ k :: ks₂)
    (hok : ∀ x ∈ ks₁, f (dictIoArgsAt (d0 :: rest) x) = .ok (res x))
    (herr : f (dictIoArgsAt (d0 :: rest) k) = .error e) :
    dict_io f (d0 :: rest) = .error e := by
  have hne : d0.map Prod.fst ≠ [] := by
    rw [hsplit]
    exact List.append_ne_nil_of_right_ne_nil _ (List.cons_ne_nil k ks₂)
  obtain ⟨lk, hlk⟩ := Option.isSome_iff_exists.mp (List.getLast?_isSome.mpr hne)
  rw [dict_io, hlk, hsplit, dictIoLoop_error_first f (d0 :: rest) k ks₂ e herr ks₁ []
    (fun x hx => ⟨res x, hok x hx⟩)]

/-- Witness for C3: a callable raising on the value at key `"b"` makes the
whole adapted call raise that error. -/
theorem c3_error_atomicity_witness :
    dict_io exBoomOn2 [[("a", PyVal.int 1), ("b", PyVal.int 2)]] =
      .error (.userError "boom") :=
  c3_error_atomicity exBoomOn2 [("a", PyVal.int 1), ("b", PyVal.int 2)] []
    ["a"] "b" [] (.userError "boom") (fun _ => PyVal.int 1) (by rfl)
    (by
      intro x hx
      simp only [List.mem_singleton] at hx
      subst hx
      rfl)
    (by rfl)

/-- C4: Branch selection by last key only.  Given per-key successes, whether
the adapter returns a mapping is decided solely by whether the last iterated
key's result is a tuple: a non-tuple last result returns the mapping (even if
earlier keys produced tuples), while a tuple last result never returns a
plain mapping — it yields a tuple of mappings or raises the transpose's
`TypeError`. -/
theorem c4_last_key_branch (f : List PyVal → Except PyErr PyVal)
    (d0 : PyDict) (rest : List PyDict) (res : String → PyVal) (lk : String)
    (hnd : (d0.map Prod.fst).Nodup)
    (hlk : (d0.map Prod.fst).getLast? = some lk)
    (hf : ∀ k ∈ d0.map Prod.fst, f (dictIoArgsAt (d0 :: rest) k) = .ok (res k)) :
    ((res lk).isTup = false →
      dict_io f (d0 :: rest) =
        .ok (.dict ((d0.map Prod.fst).map (fun k => (k, res k))))) ∧
    ((res lk).isTup = true →
      (∃ l, dict_io f (d0 :: rest) = .ok (.tup l)) ∨
        dict_io f (d0 :: rest) = .error .typeError) := by
  constructor
  · exact fun hs => dict_io_scalar_master f d0 rest res lk hnd hlk hf hs
  · intro ht
    have hlkmem := List.mem_of_getLast?_eq_some hlk
    have hloop := dictIoLoop_ok_of_forall f (d0 :: rest) res (d0.map Prod.fst) []
      hnd (by intro k _; simp) hf
    rw [dict_io, hlk, hloop]
    simp only [List.nil_append, lookup_map_pair_self res _ lk hlkmem, ht, if_true]
    cases hiter : pyIterAll (((d0.map Prod.fst).map (fun k => (k, res k))).map Prod.snd) with
    | none =>
      right
      simp only [dict_of_list_to_list_of_dict, hiter]
    | some vss =>
      left
      exact ⟨(pyZipStar vss).map
          (fun row => (((d0.map Prod.fst).map (fun k => (k, res k))).map Prod.fst).zip row),
        by simp only [dict_of_list_to_list_of_dict, hiter]⟩

/-- Witness for C4: a heterogeneous result set — a tuple at key `"a"`, a
scalar at the last key `"b"` — still returns the plain mapping. -/
theorem c4_last_key_branch_witness :
    dict_io exMixed [[("a", PyVal.int 1), ("b", PyVal.int 2)]] =
      .ok (.dict [("a", PyVal.tup [PyVal.int 1, PyVal.int 1]), ("b", PyVal.int 2)]) := by
  have h := (c4_last_key_branch exMixed [("a", PyVal.int 1), ("b", PyVal.int 2)] []
    (fun k => if k = "a" then PyVal.tup [PyVal.int 1, PyVal.int 1] else PyVal.int 2) "b"
    (by decide) (by rfl)
    (by
      intro k hk
      simp only [List.map_cons, List.map_nil, List.mem_cons,
        List.not_mem_nil, or_false] at hk
      rcases hk with rfl | rfl <;> rfl)).1 (by rfl)
  exact h.trans (by rfl)

/-- C7: Missing-key tolerance.  A lookup for a key absent from a later
mapping yields the absent value `None` instead of raising, and that value is
passed as the corresponding positional argument to the wrapped callable: with
first mapping `{k: v}` and a second mapping lacking `k`, the callable is
invoked as `f(v, None)`. -/
theorem c7_missing_key_tolerance :
    (∀ (d : PyDict) (k : String), d.lookup k = Option.none →
      dictGet d k = PyVal.none) ∧
    (∀ (f : List PyVal → Except PyErr PyVal) (k : String) (v r : PyVal)
      (d1 : PyDict), d1.lookup k = Option.none →
      dictIoArgsAt [[(k, v)], d1] k = [v, PyVal.none] ∧
        (f [v, PyVal.none] = .ok r → r.isTup = false →
          dict_io f [[(k, v)], d1] = .ok (.dict [(k, r)]))) := by
  refine ⟨fun d k h => dictGet_of_lookup_none h, ?_⟩
  intro f k v r d1 h1
  have hargs : dictIoArgsAt [[(k, v)], d1] k = [v, PyVal.none] := by
    simp [dictIoArgsAt, dictGet, h1, List.lookup]
  refine ⟨hargs, fun hf hr => ?_⟩
  have h := dict_io_scalar_master f [(k, v)] [d1] (fun _ => r) k
    (by simp) (by rfl)
    (by
      intro x hx
      simp only [List.map_cons, List.map_nil, List.mem_singleton] at hx
      subst hx
      rw [hargs, hf])
    hr
  simpa using h

/-- Witness for C7: a callable returning its second positional argument shows
the absent value flowing through — the output maps `"a"` to `None`. -/
theorem c7_missing_key_tolerance_witness :
    dict_io exSecond [[("a", PyVal.int 1)], []] = .ok (.dict [("a", PyVal.none)]) :=
  ((c7_missing_key_tolerance.2 exSecond "a" (PyVal.int 1) PyVal.none [] rfl).2) rfl rfl

/-- C9: An empty first mapping makes the adapted call raise (the post-loop
shape inspection references the never-bound loop variable, a `NameError`)
instead of returning an empty mapping. -/
theorem c9_empty_first_mapping (f : List PyVal → Except PyErr PyVal)
    (rest : List PyDict) :
    dict_io f ([] :: rest) = .error PyErr.nameError := rfl

/-- C10: Ragged tuple results.  When every per-key result is a tuple and `n`
is the minimum tuple length over the keys, the transpose has exactly `n`
positions — longer results have their trailing elements dropped — and every
returned mapping contains every key, in order. -/
theorem c10_ragged_truncation (f : List PyVal → Except PyErr PyVal)
    (d0 : PyDict) (rest : List PyDict) (res : String → List PyVal) (n : Nat)
    (hne : d0.map Prod.fst ≠ [])
    (hnd : (d0.map Prod.fst).Nodup)
    (hf : ∀ k ∈ d0.map Prod.fst,
      f (dictIoArgsAt (d0 :: rest) k) = .ok (.tup (res k)))
    (hlb : ∀ k ∈ d0.map Prod.fst, n ≤ (res k).length)
    (hmem : ∃ k ∈ d0.map Prod.fst, (res k).length = n) :
    ∃ L, dict_io f (d0 :: rest) = .ok (.tup L) ∧
      L.length = n ∧
      (∀ m ∈ L, m.map Prod.fst = d0.map Prod.fst) ∧
      L = (List.range n).map
        (fun i => (d0.map Prod.fst).map (fun k => (k, (res k).getD i PyVal.none))) := by
  have hz : pyZipLen ((d0.map Prod.fst).map res) = n := pyZipLen_eq_min
    (fun h => hne (List.map_eq_nil_iff.mp h)) n
    (by
      intro l hl
      obtain ⟨k, hk, rfl⟩ := List.mem_map.mp hl
      exact hlb k hk)
    (by
      obtain ⟨k, hk, hkn⟩ := hmem
      exact ⟨res k, List.mem_map_of_mem res hk, hkn⟩)
  refine ⟨(List.range n).map
      (fun i => (d0.map Prod.fst).map (fun k => (k, (res k).getD i PyVal.none))),
    ?_, by simp, ?_, rfl⟩
  · rw [dict_io_tup_master f d0 rest res hnd hne hf, hz]
  · intro m hm
    obtain ⟨i, _, rfl⟩ := List.mem_map.mp hm
    simp [List.map_map, Function.comp_def]

/-- Witness for C10: tuple results of lengths 3 (key `"a"`) and 2 (key `"b"`)
transpose to exactly 2 mappings; the third element of the longer tuple is
dropped and both keys appear in each mapping. -/
theorem c10_ragged_truncation_witness :
    dict_io exRagged [[("a", PyVal.int 1), ("b", PyVal.int 2)]] =
      .ok (.tup [[("a", PyVal.int 10), ("b", PyVal.int 2)],
                 [("a", PyVal.int 20), ("b", PyVal.int 5)]]) := by
  obtain ⟨L, hL, _, _, hLeq⟩ := c10_ragged_truncation exRagged
    [("a", PyVal.int 1), ("b", PyVal.int 2)] []
    (fun k => if k = "a" then [PyVal.int 10, PyVal.int 20, PyVal.int 30]
      else [PyVal.int 2, PyVal.int 5]) 2
    (by decide) (by decide)
    (by
      intro k hk
      simp only [List.map_cons, List.map_nil, List.mem_cons,
        List.not_mem_nil, or_false] at hk
      rcases hk with rfl | rfl <;> rfl)
    (by
      intro k hk
      simp only [List.map_cons, List.map_nil, List.mem_cons,
        List.not_mem_nil, or_false] at hk
      rcases hk with rfl | rfl <;> decide)
    (by exact ⟨"b", by decide, by rfl⟩)
  rw [hL, hLeq]
  rfl

/-- C5: Transparency of the Timing Decorator.  For every callable and
arguments, the wrapped call returns exactly the value the unwrapped callable
returns; when the callable raises, the same error propagates unchanged and
nothing is logged. -/
theorem c5_log_time_transparent {α β : Type} (f : α → Except PyErr β)
    (fname : String) (elapsed : ℚ) (x : α) :
    (log_time f fname elapsed x).1 = f x ∧
    (∀ e, f x = .error e → log_time f fname elapsed x = (.error e, [])) := by
  cases h : f x with
  | error e =>
    refine ⟨by simp [log_time, h], ?_⟩
    intro e2 he2
    cases he2
    simp [log_time, h]
  | ok r =>
    refine ⟨by simp [log_time, h], ?_⟩
    intro e2 he2
    cases he2

/-- Witness for C5: an always-raising callable wrapped by `log_time` raises
the same error and emits no log record. -/
theorem c5_log_time_transparent_witness :
    log_time exBoom "f" 1 PyVal.none = (.error (.userError "boom"), []) :=
  (c5_log_time_transparent exBoom "f" 1 PyVal.none).2 (.userError "boom") rfl

/-- C8: Availability gating of the Memory Profiling Decorator.  After module
load, `mem_profile` exists exactly when the `memory_profiler` package was
discoverable; when it is absent, the decorator is not defined at all. -/
theorem c8_mem_profile_gating (env : PyEnv) :
    (mem_profile env).isSome = env.memory_profiler_found ∧
    (env.memory_profiler_found = false → mem_profile env = Option.none) := by
  cases env with
  | mk found => cases found <;> simp [mem_profile]

/-- Witness for C8: with the package absent, `mem_profile` does not exist. -/
theorem c8_mem_profile_gating_witness :
    mem_profile { memory_profiler_found := false } = Option.none :=
  (c8_mem_profile_gating { memory_profiler_found := false }).2 rfl

lemma floor_div_sixty (q : ℚ) : ⌊q / 60⌋ = ⌊q⌋ / 60 := by
  rw [Int.floor_eq_iff]
  constructor
  · rw [le_div_iff₀ (by norm_num : (0:ℚ) < 60)]
    have hz : ((⌊q⌋ / 60 * 60 : ℤ) : ℚ) ≤ (⌊q⌋ : ℚ) := by
      exact_mod_cast (by omega : (⌊q⌋ / 60 * 60 : ℤ) ≤ ⌊q⌋)
    calc ((⌊q⌋ / 60 : ℤ) : ℚ) * 60 = ((⌊q⌋ / 60 * 60 : ℤ) : ℚ) := by push_cast; ring
    _ ≤ (⌊q⌋ : ℚ) := hz
    _ ≤ q := Int.floor_le q
  · rw [div_lt_iff₀ (by norm_num : (0:ℚ) < 60)]
    have h1 : q < (⌊q⌋ : ℚ) + 1 := Int.lt_floor_add_one q
    have h2 : ((⌊q⌋ + 1 : ℤ) : ℚ) ≤ (((⌊q⌋ / 60 + 1) * 60 : ℤ) : ℚ) := by
      exact_mod_cast (by omega : (⌊q⌋ + 1 : ℤ) ≤ (⌊q⌋ / 60 + 1) * 60)
    calc q < (⌊q⌋ : ℚ) + 1 := h1
    _ = ((⌊q⌋ + 1 : ℤ) : ℚ) := by push_cast; ring
    _ ≤ (((⌊q⌋ / 60 + 1) * 60 : ℤ) : ℚ) := h2
    _ = (((⌊q⌋ / 60 : ℤ) : ℚ) + 1) * 60 := by push_cast; ring

lemma pyTrunc_of_nonneg {q : ℚ} (h : 0 ≤ q) : pyTrunc q = ⌊q⌋ :=
  if_neg (not_lt.mpr h)

lemma pyTrunc_intCast (n : ℤ) : pyTrunc (n : ℚ) = n := by
  rcases le_or_lt 0 (n : ℚ) with h | h
  · rw [pyTrunc_of_nonneg h, Int.floor_intCast]
  · rw [pyTrunc, if_pos h, ← Int.cast_neg, Int.floor_intCast, neg_neg]

lemma pyFmtD_intCast (n : ℤ) : pyFmtD (n : ℚ) = toString n := by
  rw [pyFmtD, pyTrunc_intCast]

lemma pyFmt02d_intCast (n : ℤ) : pyFmt02d (n : ℚ) = pad2Int n := by
  rw [pyFmt02d, pyTrunc_intCast]

lemma secs_nonneg (q : ℚ) : 0 ≤ q - 60 * ((⌊q⌋ / 60 : ℤ) : ℚ) := by
  have h := Int.floor_le (q / 60)
  rw [floor_div_sixty] at h
  have h2 := (le_div_iff₀ (by norm_num : (0:ℚ) < 60)).mp h
  linarith

lemma secs_floor (q : ℚ) : ⌊q - 60 * ((⌊q⌋ / 60 : ℤ) : ℚ)⌋ = ⌊q⌋ % 60 := by
  rw [show (60 : ℚ) * ((⌊q⌋ / 60 : ℤ) : ℚ) = ((60 * (⌊q⌋ / 60) : ℤ) : ℚ) from by
      push_cast; ring,
    Int.floor_sub_int]
  omega

lemma pyFmt02d_secs (q : ℚ) :
    pyFmt02d (q - 60 * ((⌊q⌋ / 60 : ℤ) : ℚ)) = pad2Int (⌊q⌋ % 60) := by
  rw [pyFmt02d, pyTrunc_of_nonneg (secs_nonneg q), secs_floor]

lemma hrt_b1 (q : ℚ) (h1 : 3600 ≤ q) :
    human_readable_time q =
      toString (⌊q⌋ / 3600) ++ "h" ++ pad2Int (⌊q⌋ / 60 % 60) ++ "m" ++
        pad2Int (⌊q⌋ % 60) ++ "s" := by
  have hF : (3600:ℤ) ≤ ⌊q⌋ := Int.le_floor.mpr (by exact_mod_cast h1)
  simp only [human_readable_time, floor_div_sixty, Int.floor_intCast]
  rw [if_pos (by omega : ⌊q⌋ / 60 / 60 > 0)]
  rw [pyFmtD_intCast]
  rw [show ((⌊q⌋ / 60 : ℤ) : ℚ) - 60 * ((⌊q⌋ / 60 / 60 : ℤ) : ℚ) =
      ((⌊q⌋ / 60 - 60 * (⌊q⌋ / 60 / 60) : ℤ) : ℚ) from by push_cast; ring]
  rw [pyFmt02d_intCast, pyFmt02d_secs]
  rw [show ⌊q⌋ / 60 / 60 = ⌊q⌋ / 3600 from by omega,
    show ⌊q⌋ / 60 - 60 * (⌊q⌋ / 3600) = ⌊q⌋ / 60 % 60 from by omega]

lemma hrt_b2 (q : ℚ) (h1 : 60 ≤ q) (h2 : q < 3600) :
    human_readable_time q =
      toString (⌊q⌋ / 60) ++ "m" ++ pad2Int (⌊q⌋ % 60) ++ "s" := by
  have hF1 : (60:ℤ) ≤ ⌊q⌋ := Int.le_floor.mpr (by exact_mod_cast h1)
  have hF2 : ⌊q⌋ < 3600 := Int.floor_lt.mpr (by exact_mod_cast h2)
  simp only [human_readable_time, floor_div_sixty, Int.floor_intCast]
  rw [if_neg (by omega : ¬ ⌊q⌋ / 60 / 60 > 0)]
  rw [show ((⌊q⌋ / 60 : ℤ) : ℚ) - 60 * ((⌊q⌋ / 60 / 60 : ℤ) : ℚ) =
      ((⌊q⌋ / 60 - 60 * (⌊q⌋ / 60 / 60) : ℤ) : ℚ) from by push_cast; ring]
  rw [if_pos (show ((⌊q⌋ / 60 - 60 * (⌊q⌋ / 60 / 60) : ℤ) : ℚ) > 0 from by
    exact_mod_cast (by omega : (0:ℤ) < ⌊q⌋ / 60 - 60 * (⌊q⌋ / 60 / 60)))]
  rw [pyFmtD_intCast, pyFmt02d_secs]
  rw [show ⌊q⌋ / 60 - 60 * (⌊q⌋ / 60 / 60) = ⌊q⌋ / 60 from by omega]

lemma hrt_b3 (q : ℚ) (h1 : 1 ≤ q) (h2 : q < 60) :
    human_readable_time q = fmtFixed 2 q ++ "s" := by
  have hF1 : (1:ℤ) ≤ ⌊q⌋ := Int.le_floor.mpr (by exact_mod_cast h1)
  have hF2 : ⌊q⌋ < 60 := Int.floor_lt.mpr (by exact_mod_cast h2)
  simp only [human_readable_time, floor_div_sixty, Int.floor_intCast]
  rw [show ⌊q⌋ / 60 = 0 from by omega]
  norm_num
  intro hc
  linarith

lemma hrt_b4 (q : ℚ) (h0 : 0 ≤ q) (h1 : q < 1) :
    human_readable_time q = fmtFixed 0 (q * 1000) ++ "ms" := by
  have hF1 : (0:ℤ) ≤ ⌊q⌋ := Int.floor_nonneg.mpr h0
  have hF2 : ⌊q⌋ < 1 := Int.floor_lt.mpr (by exact_mod_cast h1)
  simp only [human_readable_time, floor_div_sixty, Int.floor_intCast]
  rw [show ⌊q⌋ / 60 = 0 from by omega]
  norm_num
  intro hc
  linarith

lemma roundHalfEven_natCast (n : ℕ) : roundHalfEven (n : ℚ) = n := by
  have hfl : ⌊(n : ℚ)⌋ = (n : ℤ) := Int.floor_natCast n
  rw [roundHalfEven, hfl]
  rw [if_pos (by
    rw [show ((n : ℤ) : ℚ) = (n : ℚ) from by push_cast; rfl]
    norm_num)]

lemma fmtFixed_zero_eval (q : ℚ) (n : ℕ) (h : q = (n : ℚ)) :
    fmtFixed 0 q = toString n := by
  subst h
  simp only [fmtFixed, pow_zero, mul_one, roundHalfEven_natCast, Int.toNat_natCast,
    if_pos]

lemma fmtFixed_two_eval (q : ℚ) (n : ℕ) (h : q * 100 = (n : ℚ)) :
    fmtFixed 2 q =
      (n / 100).repr ++ "." ++
        (List.replicate (2 - (toString (n % 100)).length) '0').asString ++
        toString (n % 100) := by
  simp only [fmtFixed]
  rw [show q * (10 : ℚ) ^ (2:ℕ) = q * 100 from by norm_num, h,
    roundHalfEven_natCast]
  norm_num

lemma hrt_ex_400ms : human_readable_time (2/5) = "400ms" := by
  rw [hrt_b4 (2/5) (by norm_num) (by norm_num),
    fmtFixed_zero_eval ((2:ℚ)/5 * 1000) 400 (by norm_num)]
  rfl

lemma hrt_ex_1s : human_readable_time 1 = "1.00s" := by
  rw [hrt_b3 1 (by norm_num) (by norm_num),
    fmtFixed_two_eval 1 100 (by norm_num)]
  rfl

lemma hrt_ex_65s : human_readable_time 65 = "1m05s" := by
  rw [hrt_b2 65 (by norm_num) (by norm_num),
    show ⌊(65:ℚ)⌋ = 65 from by norm_num]
  rfl

lemma hrt_ex_3661s : human_readable_time 3661 = "1h01m01s" := by
  rw [hrt_b1 3661 (by norm_num),
    show ⌊(3661:ℚ)⌋ = 3661 from by norm_num]
  rfl

/-- C6: Human-readable duration rendering.  For every non-negative elapsed
time the first matching rule applies: at or above one hour,
"{h}h{mm}m{ss}s" with minutes and seconds zero-padded to two digits; from
one minute up, "{m}m{ss}s"; from one second up, seconds with two decimals
plus "s"; below one second, whole milliseconds plus "ms".  In particular
0.4 renders as "400ms", 1.0 as "1.00s", 65.0 as "1m05s" and 3661.0 as
"1h01m01s". -/
theorem c6_duration_format (q : ℚ) (h0 : 0 ≤ q) :
    (3600 ≤ q → human_readable_time q =
      toString (⌊q⌋ / 3600) ++ "h" ++ pad2Int (⌊q⌋ / 60 % 60) ++ "m" ++
        pad2Int (⌊q⌋ % 60) ++ "s") ∧
    (60 ≤ q → q < 3600 → human_readable_time q =
      toString (⌊q⌋ / 60) ++ "m" ++ pad2Int (⌊q⌋ % 60) ++ "s") ∧
    (1 ≤ q → q < 60 → human_readable_time q = fmtFixed 2 q ++ "s") ∧
    (q < 1 → human_readable_time q = fmtFixed 0 (q * 1000) ++ "ms") ∧
    human_readable_time (2/5) = "400ms" ∧
    human_readable_time 1 = "1.00s" ∧
    human_readable_time 65 = "1m05s" ∧
    human_readable_time 3661 = "1h01m01s" :=
  ⟨fun h1 => hrt_b1 q h1, fun h1 h2 => hrt_b2 q h1 h2, fun h1 h2 => hrt_b3 q h1 h2,
    fun h1 => hrt_b4 q h0 h1, hrt_ex_400ms, hrt_ex_1s, hrt_ex_65s, hrt_ex_3661s⟩

/-- Witness for C6: the rendering at 3661 seconds and at 0.4 seconds. -/
theorem c6_duration_format_witness :
    human_readable_time 3661 = "1h01m01s" ∧ human_readable_time (2/5) = "400ms" :=
  ⟨(c6_duration_format 3661 (by norm_num)).2.2.2.2.2.2.2,
    (c6_duration_format (2/5) (by norm_num)).2.2.2.2.1⟩
